import Mathlib

/-!
A shallow embedding of the PSS (Probabilistic Signature Scheme) padding
codec of `src/lib/pk_pad/sig_padding/emsa_pssr/pssr.cpp`: the pure
`pss_encode` / `pss_verify` functions and the stateful `PSSR` / `PSS_Raw`
wrappers.  Bytes are modelled as `Nat` entries of lists; `size_t`
arithmetic never wraps on the reachable inputs, so plain `Nat` arithmetic
is used.  The hash function and the MGF1 mask generator are external
collaborators (out of scope per the spec) and are modelled as a structure
of functions carrying their documented length contracts.
-/

/-- `ceil_tobytes` from the Botan utility headers: how many bytes are
needed to hold `bits` bits. -/
def ceil_tobytes (bits : Nat) : Nat := (bits + 7) / 8

/-- Botan's `high_bit`: one-based index of the highest set bit, 0 for 0. -/
def high_bit (x : Nat) : Nat := if x = 0 then 0 else Nat.log2 x + 1

/-- The hash collaborator together with its MGF1 mask generator: `run`
maps a message to a digest of `output_length` bytes; `mgf seed n` is the
`n`-byte mask that `mgf1_mask` XORs into the target buffer. -/
structure HashFunction where
  output_length : Nat
  run : List Nat → List Nat
  run_length : ∀ m, (run m).length = output_length
  mgf : List Nat → Nat → List Nat
  mgf_length : ∀ s n, (mgf s n).length = n

/-- XOR of two byte buffers: the effect of `mgf1_mask` on the covered
prefix of the buffer. -/
def xorBytes (a b : List Nat) : List Nat := List.zipWith (fun x y => x ^^^ y) a b

/-- `buf[0] &= m`, as in `EM[0] &= db0_mask` and `DB[0] &= 0xFF >> top_bits`. -/
def andHead (l : List Nat) (m : Nat) : List Nat :=
  match l with
  | [] => []
  | b :: rest => (b &&& m) :: rest

/-- The encoded representation built by the non-throwing tail of
`pss_encode`: zero padding, `0x01` marker and salt stuffed into the DB
prefix, the MGF mask XORed over the DB, the top bits of byte 0 cleared,
then the trailer digest `H` and the `0xBC` trailer byte appended. -/
def pssEM (h : HashFunction) (msg salt : List Nat) (output_bits : Nat) : List Nat :=
  let HASH_SIZE := h.output_length
  let output_length := ceil_tobytes output_bits
  let db0_mask := 0xFF >>> (8 * output_length - output_bits)
  let H := h.run (List.replicate 8 0 ++ msg ++ salt)
  let db_len := output_length - HASH_SIZE - 1
  let db := List.replicate (output_length - (1 + salt.length + HASH_SIZE + 1)) 0
              ++ [0x01] ++ salt
  andHead (xorBytes db (h.mgf H db_len)) db0_mask ++ H ++ [0xBC]

/-- `pss_encode`: checks the digest length and the output-length floor,
throwing `Encoding_Error` on violation, and otherwise returns the encoded
representation. -/
def pss_encode (h : HashFunction) (msg salt : List Nat) (output_bits : Nat) :
    Except String (List Nat) :=
  if msg.length ≠ h.output_length then
    Except.error "Cannot encode PSS string, input length invalid for hash"
  else if output_bits < 8 * h.output_length + 8 * salt.length + 9 then
    Except.error "Cannot encode PSS string, output length too small"
  else
    Except.ok (pssEM h msg salt output_bits)

/-- The `coded` buffer of `pss_verify`: the representative, left-padded
with zero bytes up to `key_bytes` when it is shorter. -/
def pssCoded (pss_repr : List Nat) (key_bytes : Nat) : List Nat :=
  if pss_repr.length < key_bytes then
    List.replicate (key_bytes - pss_repr.length) 0 ++ pss_repr
  else pss_repr

/-- The claimed trailer digest: the `HASH_SIZE` bytes of `coded` that sit
between the DB block and the `0xBC` trailer byte. -/
def pssHClaimed (h : HashFunction) (pss_repr : List Nat) (key_bits : Nat) : List Nat :=
  let coded := pssCoded pss_repr (ceil_tobytes key_bits)
  let DB_size := coded.length - h.output_length - 1
  (coded.drop DB_size).take h.output_length

/-- The DB block of `coded` after the MGF mask is XORed away and the top
`top_bits` bits of `DB[0]` are cleared. -/
def pssUnmaskedDB (h : HashFunction) (pss_repr : List Nat) (key_bits : Nat) : List Nat :=
  let key_bytes := ceil_tobytes key_bits
  let coded := pssCoded pss_repr key_bytes
  let top_bits := 8 * ((key_bits + 7) / 8) - key_bits
  let DB_size := coded.length - h.output_length - 1
  andHead
    (xorBytes (coded.take DB_size) (h.mgf (pssHClaimed h pss_repr key_bits) DB_size))
    (0xFF >>> top_bits)

/-- The salt-marker scan of `pss_verify`: the loop walks DB left to right;
a `0x01` byte at index `j` sets `salt_offset = j + 1` and stops, any other
non-zero byte rejects, and reaching the end leaves `salt_offset = 0`,
which also rejects.  Both rejecting outcomes are `none`. -/
def findMarker : List Nat → Option Nat
  | [] => none
  | b :: rest =>
    if b = 0x01 then some 1
    else if b ≠ 0x00 then none
    else (findMarker rest).map (· + 1)

/-- `pss_verify`: the full verification algorithm.  The C++ function takes
a `size_t* out_salt_size` that it writes only on success; the model takes
the pointee's prior value `salt_in` and returns the pair
(result, pointee value after the call). -/
def pss_verify (h : HashFunction) (pss_repr message_hash : List Nat)
    (key_bits : Nat) (salt_in : Nat) : Bool × Nat :=
  let HASH_SIZE := h.output_length
  let key_bytes := ceil_tobytes key_bits
  if key_bits < 8 * HASH_SIZE + 9 then (false, salt_in)
  else if message_hash.length ≠ HASH_SIZE then (false, salt_in)
  else if pss_repr.length > key_bytes ∨ pss_repr.length ≤ 1 then (false, salt_in)
  else if pss_repr.getLast? ≠ some 0xBC then (false, salt_in)
  else
    let coded := pssCoded pss_repr key_bytes
    let top_bits := 8 * ((key_bits + 7) / 8) - key_bits
    if top_bits > 8 - high_bit (coded.headD 0) then (false, salt_in)
    else
      let DB_size := coded.length - HASH_SIZE - 1
      let DB := pssUnmaskedDB h pss_repr key_bits
      match findMarker DB with
      | none => (false, salt_in)
      | some salt_offset =>
        let salt_size := DB_size - salt_offset
        let H2 := h.run (List.replicate 8 0 ++ message_hash ++ DB.drop salt_offset)
        if pssHClaimed h pss_repr key_bits = H2 then (true, salt_size) else (false, salt_in)

/-- The `PSSR` codec object: hash collaborator, configured salt size, and
whether the configured salt size is enforced at verification time. -/
structure PSSR where
  m_hash : HashFunction
  m_salt_size : Nat
  m_required_salt_len : Bool

/-- `PSSR::verify`: calls `pss_verify` with a local `salt_size = 0`, then
applies the required-salt-length policy. -/
def PSSR.verify (p : PSSR) (coded raw : List Nat) (key_bits : Nat) : Bool :=
  let r := pss_verify p.m_hash coded raw key_bits 0
  if p.m_required_salt_len = true ∧ r.2 ≠ p.m_salt_size then false else r.1

/-- The `PSS_Raw` codec object: like `PSSR` but with an internal message
buffer `m_msg` that `update` appends to. -/
structure PSS_Raw where
  m_hash : HashFunction
  m_salt_size : Nat
  m_required_salt_len : Bool
  m_msg : List Nat

/-- `PSS_Raw::update`: append the input bytes to the internal buffer. -/
def PSS_Raw.update (p : PSS_Raw) (input : List Nat) : PSS_Raw :=
  PSS_Raw.mk p.m_hash p.m_salt_size p.m_required_salt_len (p.m_msg ++ input)

/-- `PSS_Raw::raw_data`: swaps the buffer out (emptying it) before the
length check, then throws `Encoding_Error` when the buffered length is not
the hash output length, else returns the buffered bytes.  Returns the
result together with the post-call object state. -/
def PSS_Raw.raw_data (p : PSS_Raw) : Except String (List Nat) × PSS_Raw :=
  let ret := p.m_msg
  let p2 := PSS_Raw.mk p.m_hash p.m_salt_size p.m_required_salt_len []
  if ret.length ≠ p.m_hash.output_length then
    (Except.error "PSS_Raw Bad input length, did not match hash", p2)
  else
    (Except.ok ret, p2)

/-- `PSS_Raw::verify`: identical to `PSSR::verify`. -/
def PSS_Raw.verify (p : PSS_Raw) (coded raw : List Nat) (key_bits : Nat) : Bool :=
  let r := pss_verify p.m_hash coded raw key_bits 0
  if p.m_required_salt_len = true ∧ r.2 ≠ p.m_salt_size then false else r.1

/-! ### Helper lemmas about the byte-buffer operations -/

lemma andHead_length (l : List Nat) (m : Nat) : (andHead l m).length = l.length := by
  cases l <;> rfl

lemma andHead_headD (l : List Nat) (m : Nat) (hl : l ≠ []) :
    (andHead l m).headD 0 = l.headD 0 &&& m := by
  cases l with
  | nil => exact absurd rfl hl
  | cons b rest => rfl

lemma xorBytes_length (a b : List Nat) : (xorBytes a b).length = min a.length b.length :=
  List.length_zipWith _ _ _

lemma xorBytes_cancel (a : List Nat) :
    ∀ b : List Nat, a.length ≤ b.length → xorBytes (xorBytes a b) b = a := by
  induction a with
  | nil => intro b _; rfl
  | cons x xs ih =>
    intro b hb
    cases b with
    | nil => simp at hb
    | cons y ys =>
      have : (x ^^^ y) ^^^ y = x := Nat.xor_cancel_right y x
      simp only [xorBytes, List.zipWith] at *
      simp [this, ih ys (by simpa using hb)]

lemma head_and_xor (a m k : Nat) : (((a ^^^ m) &&& k) ^^^ m) &&& k = a &&& k := by
  apply Nat.eq_of_testBit_eq
  intro i
  simp only [Nat.testBit_and, Nat.testBit_xor]
  cases a.testBit i <;> cases m.testBit i <;> cases k.testBit i <;> rfl

lemma unmask_mask (d0 : Nat) (dt mask : List Nat) (k : Nat)
    (hm : dt.length + 1 ≤ mask.length) :
    andHead (xorBytes (andHead (xorBytes (d0 :: dt) mask) k) mask) k = (d0 &&& k) :: dt := by
  cases mask with
  | nil => simp at hm
  | cons m0 mt =>
    show andHead (xorBytes ((((d0 ^^^ m0)) &&& k) :: xorBytes dt mt) (m0 :: mt)) k = _
    show ((((d0 ^^^ m0) &&& k) ^^^ m0) &&& k) :: xorBytes (xorBytes dt mt) mt = _
    rw [head_and_xor, xorBytes_cancel dt mt (by simpa using hm)]

lemma findMarker_replicate (z : Nat) (s : List Nat) :
    findMarker (List.replicate z 0 ++ 1 :: s) = some (z + 1) := by
  induction z with
  | zero => simp [findMarker]
  | succ n ih =>
    rw [List.replicate_succ, List.cons_append]
    show ((if (0 : Nat) = 1 then some 1
      else if (0 : Nat) ≠ 0 then none
      else (findMarker (List.replicate n 0 ++ 1 :: s)).map (· + 1)) : Option Nat) = _
    simp [ih]

lemma shift255 (t : Nat) (ht : t ≤ 8) : 255 >>> t = 2 ^ (8 - t) - 1 := by
  interval_cases t <;> rfl

lemma one_and_shift255 (t : Nat) (ht : t ≤ 7) : 1 &&& (255 >>> t) = 1 := by
  interval_cases t <;> rfl

lemma high_bit_le (x n : Nat) (hx : x < 2 ^ n) : high_bit x ≤ n := by
  unfold high_bit
  split
  · exact Nat.zero_le n
  · next h0 => have := (Nat.log2_lt h0).mpr hx; omega

/-! ### The ideal behaviour of `pss_verify` on an encoded representation

For any digest `d2` of the right length, verifying `pssEM h d s N`
against `d2` at `key_bits = N` passes every structural check and comes
down to the recomputed trailer digest comparison. -/

lemma pss_verify_pssEM (h : HashFunction) (d s d2 : List Nat) (N s0 : Nat)
    (hd2 : d2.length = h.output_length)
    (hN : 8 * h.output_length + 8 * s.length + 9 ≤ N) :
    pss_verify h (pssEM h d s N) d2 N s0 =
      if h.run (List.replicate 8 0 ++ d ++ s) = h.run (List.replicate 8 0 ++ d2 ++ s)
      then (true, s.length) else (false, s0) := by
  have hceil : ceil_tobytes N = (N + 7) / 8 := rfl
  have hoLbig : h.output_length + s.length + 2 ≤ ceil_tobytes N := by
    rw [hceil]; omega
  have hT7 : 8 * ceil_tobytes N - N ≤ 7 := by rw [hceil]; omega
  have hNle : N ≤ 8 * ceil_tobytes N := by rw [hceil]; omega
  have hA : (h.run (List.replicate 8 0 ++ d ++ s)).length = h.output_length :=
    h.run_length _
  set A := h.run (List.replicate 8 0 ++ d ++ s) with hAdef
  set oL := ceil_tobytes N with hoL
  set db := List.replicate (oL - (1 + s.length + h.output_length + 1)) 0 ++ [1] ++ s
    with hdb
  set mask := h.mgf A (oL - h.output_length - 1) with hmask
  set k := 255 >>> (8 * oL - N) with hk
  set maskedDB := andHead (xorBytes db mask) k with hmdb
  have hEM : pssEM h d s N = maskedDB ++ A ++ [188] := rfl
  have hdbl : db.length = oL - h.output_length - 1 := by
    rw [hdb]; simp; omega
  have hmaskl : mask.length = oL - h.output_length - 1 := h.mgf_length _ _
  have hmdbl : maskedDB.length = oL - h.output_length - 1 := by
    rw [hmdb, andHead_length, xorBytes_length, hdbl, hmaskl, Nat.min_self]
  have hEMl : (pssEM h d s N).length = oL := by
    rw [hEM]; simp [hmdbl, hA]; omega
  have hcoded : pssCoded (pssEM h d s N) (ceil_tobytes N) = pssEM h d s N := by
    unfold pssCoded
    rw [if_neg]
    rw [hEMl, ← hoL]
    omega
  simp only [pss_verify]
  rw [if_neg (by omega : ¬ N < 8 * h.output_length + 9)]
  rw [if_neg (by simp [hd2] : ¬ d2.length ≠ h.output_length)]
  rw [if_neg]
  swap
  · rw [hEMl, ← hoL]
    push_neg
    constructor
    · omega
    · omega
  rw [if_neg]
  swap
  · rw [hEM]
    rw [show maskedDB ++ A ++ [188] = (maskedDB ++ A) ++ [188] by simp]
    rw [List.getLast?_concat]
    simp
  rw [hcoded]
  have h8 : (8:Nat) * ((N + 7) / 8) = 8 * oL := by rw [hceil]
  have hxblen : (xorBytes db mask).length = oL - h.output_length - 1 := by
    rw [xorBytes_length, hdbl, hmaskl, Nat.min_self]
  have hkval : k = 2 ^ (8 - (8 * oL - N)) - 1 := by
    rw [hk, shift255 _ (by omega)]
  have hhead : (pssEM h d s N).headD 0 < 2 ^ (8 - (8 * oL - N)) := by
    rw [hEM, hmdb]
    cases hxb : xorBytes db mask with
    | nil => rw [hxb] at hxblen; simp at hxblen; omega
    | cons b rest =>
      have hle : b &&& k ≤ k := Nat.and_le_right
      have hpos : 0 < 2 ^ (8 - (8 * oL - N)) := Nat.two_pow_pos _
      simp [andHead]
      omega
  have hhb := high_bit_le _ _ hhead
  rw [if_neg (by omega)]
  have hHC : pssHClaimed h (pssEM h d s N) N = A := by
    simp only [pssHClaimed]
    rw [hcoded, hEMl, hEM, List.append_assoc, List.drop_left' hmdbl, List.take_left' hA]
  have hDB : pssUnmaskedDB h (pssEM h d s N) N = db := by
    simp only [pssUnmaskedDB]
    rw [hcoded, hEMl, hHC, hEM, List.append_assoc, List.take_left' hmdbl, h8, ← hk, ← hmask, hmdb, hdb]
    cases hz : oL - (1 + s.length + h.output_length + 1) with
    | zero =>
      rw [List.replicate_zero, List.nil_append, List.singleton_append]
      rw [unmask_mask 1 s mask k (by omega)]
      rw [show (1 :Nat) &&& k = 1 from hk ▸ one_and_shift255 _ (by omega)]
    | succ n =>
      rw [List.replicate_succ, List.cons_append, List.cons_append]
      rw [unmask_mask 0 _ mask k (by simp; omega)]
      rw [Nat.zero_and]
  have hmarker : findMarker db = some (oL - (1 + s.length + h.output_length + 1) + 1) := by
    rw [hdb, List.append_assoc, List.singleton_append]
    exact findMarker_replicate _ s
  have hdrop : db.drop (oL - (1 + s.length + h.output_length + 1) + 1) = s := by
    rw [hdb, List.append_assoc, List.singleton_append,
      show List.replicate (oL - (1 + s.length + h.output_length + 1)) 0 ++ 1 :: s
        = (List.replicate (oL - (1 + s.length + h.output_length + 1)) 0 ++ [1]) ++ s by simp]
    exact List.drop_left' (by simp)
  rw [hDB, hmarker]
  simp only [hHC, hEMl, hdrop]
  rw [show oL - h.output_length - 1 - (oL - (1 + s.length + h.output_length + 1) + 1)
    = s.length from by omega]

/-! ### Concrete collaborator instances used as witnesses -/

/-- A fixed test hash with 4-byte digests: it projects bytes 8..11 out of
the message (zero padded), so on a PSS input `0^8 || digest || salt` it
returns the digest itself.  Its MGF emits a deterministic counter stream
seeded from the byte sum of the seed. -/
def testHash4 : HashFunction :=
  HashFunction.mk 4
    (fun m => ((m.drop 8) ++ List.replicate 4 0).take 4)
    (by intro m; simp)
    (fun s n => (List.range n).map (fun i => (s.foldl (· + ·) 0 + i) % 256))
    (by intro s n; simp)

/-- An injective encoding of byte lists into `Nat`, used to build a
collision-free hash instance. -/
def encodeListNat : List Nat → Nat
  | [] => 0
  | b :: rest => Nat.pair b (encodeListNat rest) + 1

lemma encodeListNat_injective : Function.Injective encodeListNat := by
  intro a
  induction a with
  | nil =>
    intro b hb
    cases b with
    | nil => rfl
    | cons c cs => simp [encodeListNat] at hb
  | cons x xs ih =>
    intro b hb
    cases b with
    | nil => simp [encodeListNat] at hb
    | cons y ys =>
      simp only [encodeListNat, Nat.add_right_cancel_iff] at hb
      have h1 : (x, encodeListNat xs) = (y, encodeListNat ys) := by
        rw [← Nat.unpair_pair x (encodeListNat xs), hb, Nat.unpair_pair]
      have hx : x = y := congrArg Prod.fst h1
      have hxs : encodeListNat xs = encodeListNat ys := congrArg Prod.snd h1
      rw [hx, ih hxs]

/-- A collision-free hash instance with 1-byte digests (digest entries are
unbounded `Nat` values, which the codec never restricts). -/
def injHash : HashFunction :=
  HashFunction.mk 1
    (fun m => [encodeListNat m])
    (fun _ => rfl)
    (fun _ n => List.replicate n 0)
    (by intro s n; simp)

lemma injHash_run_injective : Function.Injective injHash.run := by
  intro a b hab
  have h1 : encodeListNat a = encodeListNat b := by
    have := congrArg (fun l => List.headD l 0) hab
    simpa [injHash] using this
  exact encodeListNat_injective h1

/-! ### The rejection structure of `pss_verify` -/

lemma findMarker_eq_none_of_bad_byte (DB : List Nat)
    (hbad : ∃ j, j < DB.length ∧ DB.getD j 0 ≠ 0 ∧ DB.getD j 0 ≠ 1 ∧
      ∀ i, i < j → DB.getD i 0 ≠ 1) :
    findMarker DB = none := by
  induction DB with
  | nil => obtain ⟨j, hj, _⟩ := hbad; simp at hj
  | cons b rest ih =>
    obtain ⟨j, hj, hb0, hb1, hprev⟩ := hbad
    cases j with
    | zero =>
      simp only [List.getD_cons_zero] at hb0 hb1
      show (if b = 1 then some 1 else if b ≠ 0 then none
        else (findMarker rest).map (· + 1)) = none
      rw [if_neg hb1, if_pos hb0]
    | succ n =>
      have hb : b ≠ 1 := by
        have := hprev 0 (Nat.succ_pos n)
        simpa using this
      by_cases hb0' : b = 0
      · show (if b = 1 then some 1 else if b ≠ 0 then none
          else (findMarker rest).map (· + 1)) = none
        rw [if_neg hb, if_neg (by simp [hb0'])]
        have hrest : findMarker rest = none := by
          apply ih
          refine ⟨n, by simpa using hj, by simpa using hb0, by simpa using hb1, ?_⟩
          intro i hi
          have := hprev (i + 1) (by omega)
          simpa using this
        rw [hrest]
        rfl
      · show (if b = 1 then some 1 else if b ≠ 0 then none
          else (findMarker rest).map (· + 1)) = none
        rw [if_neg hb, if_pos hb0']

lemma findMarker_eq_none_of_no_marker (DB : List Nat)
    (hno : ∀ j, j < DB.length → DB.getD j 0 ≠ 1) :
    findMarker DB = none := by
  induction DB with
  | nil => rfl
  | cons b rest ih =>
    have hb : b ≠ 1 := by
      have := hno 0 (by simp)
      simpa using this
    show (if b = 1 then some 1 else if b ≠ 0 then none
      else (findMarker rest).map (· + 1)) = none
    rw [if_neg hb]
    by_cases hb0 : b = 0
    · rw [if_neg (by simp [hb0])]
      have hrest : findMarker rest = none := by
        apply ih
        intro j hj
        have := hno (j + 1) (by simpa using hj)
        simpa using this
      rw [hrest]
      rfl
    · rw [if_pos hb0]

/-- Every rejecting branch of `pss_verify` leaves the out-parameter at its
prior value; only the accepting branch can change it. -/
lemma pss_verify_snd_or_true (h : HashFunction) (pss_repr message_hash : List Nat)
    (key_bits s0 : Nat) :
    (pss_verify h pss_repr message_hash key_bits s0).2 = s0 ∨
    (pss_verify h pss_repr message_hash key_bits s0).1 = true := by
  simp only [pss_verify]
  repeat' split
  all_goals simp

lemma pss_verify_false_pair (h : HashFunction) (pss_repr message_hash : List Nat)
    (key_bits s0 : Nat)
    (hf : (pss_verify h pss_repr message_hash key_bits s0).1 = false) :
    pss_verify h pss_repr message_hash key_bits s0 = (false, s0) := by
  rcases pss_verify_snd_or_true h pss_repr message_hash key_bits s0 with h2 | h1
  · have hpair : pss_verify h pss_repr message_hash key_bits s0 =
        ((pss_verify h pss_repr message_hash key_bits s0).1,
         (pss_verify h pss_repr message_hash key_bits s0).2) := rfl
    rw [hpair, hf, h2]
  · rw [h1] at hf
    cases hf

/-- Whenever `pss_verify` accepts, every structural check passed. -/
lemma pss_verify_true_elim (h : HashFunction) (pss_repr message_hash : List Nat)
    (key_bits s0 : Nat)
    (ht : (pss_verify h pss_repr message_hash key_bits s0).1 = true) :
    ¬ key_bits < 8 * h.output_length + 9 ∧
    message_hash.length = h.output_length ∧
    pss_repr.length ≤ ceil_tobytes key_bits ∧ 1 < pss_repr.length ∧
    pss_repr.getLast? = some 188 ∧
    ¬ (8 * ((key_bits + 7) / 8) - key_bits
        > 8 - high_bit ((pssCoded pss_repr (ceil_tobytes key_bits)).headD 0)) ∧
    findMarker (pssUnmaskedDB h pss_repr key_bits) ≠ none := by
  simp only [pss_verify] at ht
  split at ht
  · simp at ht
  next hc1 =>
  split at ht
  · simp at ht
  next hc2 =>
  split at ht
  · simp at ht
  next hc3 =>
  split at ht
  · simp at ht
  next hc4 =>
  split at ht
  · simp at ht
  next hc5 =>
  split at ht
  next hm => simp at ht
  next so hm =>
    push_neg at hc2 hc3 hc4
    exact ⟨hc1, hc2, hc3.1, hc3.2, hc4, hc5, by simp [hm]⟩

/-! ### Claim theorems -/

/-- C1: Round-trip: for every digest `d` of length `H`, every salt `s` of
length `S`, and every output-bit count `N` with `8*H + 8*S + 9 ≤ N`,
`pss_encode d s N` succeeds, and `pss_verify` of the resulting EM against
the same digest `d` at `key_bits = N` returns `ok = true` with discovered
salt length `S`. -/
theorem pss_encode_verify_roundtrip (h : HashFunction) (d s : List Nat) (N s0 : Nat)
    (hd : d.length = h.output_length)
    (hN : 8 * h.output_length + 8 * s.length + 9 ≤ N) :
    pss_encode h d s N = Except.ok (pssEM h d s N) ∧
    pss_verify h (pssEM h d s N) d N s0 = (true, s.length) := by
  constructor
  · unfold pss_encode
    rw [if_neg (by simp [hd]), if_neg (by omega)]
  · rw [pss_verify_pssEM h d s d N s0 hd hN, if_pos rfl]

theorem pss_encode_verify_roundtrip_witness :
    pss_encode testHash4 [1, 2, 3, 4] [170, 187, 204, 221] 80
      = Except.ok (pssEM testHash4 [1, 2, 3, 4] [170, 187, 204, 221] 80) ∧
    pss_verify testHash4 (pssEM testHash4 [1, 2, 3, 4] [170, 187, 204, 221] 80)
      [1, 2, 3, 4] 80 0 = (true, 4) :=
  pss_encode_verify_roundtrip testHash4 [1, 2, 3, 4] [170, 187, 204, 221] 80 0
    (by decide) (by decide)

/-- C2: `pss_verify` never raises an error (it is a total function in the
model); it returns `ok = false` with the out-parameter untouched whenever
any rejection condition of the verify algorithm holds: key too small,
digest length mismatch, representative too long or too short, missing
`0xBC` trailer, padded top bits exceeding what the high byte can carry, a
byte that is neither `0x00` nor `0x01` before the first `0x01` of the
unmasked DB, or no `0x01` marker in DB at all. -/
theorem pss_verify_rejects_malformed (h : HashFunction)
    (pss_repr message_hash : List Nat) (key_bits s0 : Nat)
    (hcond :
      key_bits < 8 * h.output_length + 9 ∨
      message_hash.length ≠ h.output_length ∨
      pss_repr.length > ceil_tobytes key_bits ∨
      pss_repr.length ≤ 1 ∨
      pss_repr.getLast? ≠ some 0xBC ∨
      8 * ceil_tobytes key_bits - key_bits
        > 8 - high_bit ((pssCoded pss_repr (ceil_tobytes key_bits)).headD 0) ∨
      (∃ j, j < (pssUnmaskedDB h pss_repr key_bits).length ∧
        (pssUnmaskedDB h pss_repr key_bits).getD j 0 ≠ 0 ∧
        (pssUnmaskedDB h pss_repr key_bits).getD j 0 ≠ 1 ∧
        ∀ i, i < j → (pssUnmaskedDB h pss_repr key_bits).getD i 0 ≠ 1) ∨
      (∀ j, j < (pssUnmaskedDB h pss_repr key_bits).length →
        (pssUnmaskedDB h pss_repr key_bits).getD j 0 ≠ 1)) :
    pss_verify h pss_repr message_hash key_bits s0 = (false, s0) := by
  apply pss_verify_false_pair
  by_contra hbt
  rw [Bool.not_eq_false] at hbt
  obtain ⟨g1, g2, g3, g4, g5, g6, g7⟩ :=
    pss_verify_true_elim h pss_repr message_hash key_bits s0 hbt
  have hceq : ceil_tobytes key_bits = (key_bits + 7) / 8 := rfl
  rcases hcond with hc | hc | hc | hc | hc | hc | hc | hc
  · exact g1 hc
  · exact hc g2
  · omega
  · omega
  · exact hc g5
  · rw [hceq] at hc; exact g6 hc
  · exact g7 (findMarker_eq_none_of_bad_byte _ hc)
  · exact g7 (findMarker_eq_none_of_no_marker _ hc)

theorem pss_verify_rejects_malformed_witness :
    pss_verify testHash4 [0, 0] [1, 2, 3, 4] 0 5 = (false, 5) :=
  pss_verify_rejects_malformed testHash4 [0, 0] [1, 2, 3, 4] 0 5
    (Or.inl (by decide))

/-- C9: `pss_verify` writes the discovered salt length through its
out-parameter only when the digest comparison succeeds; on every rejection
path the pointee keeps its prior value, so a failed verification never
reveals a discovered salt length to the caller. -/
theorem pss_verify_salt_frame (h : HashFunction) (pss_repr message_hash : List Nat)
    (key_bits s0 : Nat)
    (hf : (pss_verify h pss_repr message_hash key_bits s0).1 = false) :
    (pss_verify h pss_repr message_hash key_bits s0).2 = s0 := by
  rw [pss_verify_false_pair h pss_repr message_hash key_bits s0 hf]

theorem pss_verify_salt_frame_witness :
    (pss_verify testHash4 [0, 0] [1, 2, 3, 4] 40 7).2 = 7 :=
  pss_verify_salt_frame testHash4 [0, 0] [1, 2, 3, 4] 40 7 (by decide)

/-- C3: `pss_encode` fails with an `Encoding_Error` (producing no output)
exactly when the digest length is wrong or `output_bits < 8*H + 8*S + 9`;
at the boundary, `8*H + 8*S + 8` fails and `8*H + 8*S + 9` succeeds. -/
theorem pss_encode_error_conditions (h : HashFunction) (d s : List Nat) (N : Nat) :
    ((∃ e, pss_encode h d s N = Except.error e) ↔
      (d.length ≠ h.output_length ∨ N < 8 * h.output_length + 8 * s.length + 9)) ∧
    (∃ e, pss_encode h d s (8 * h.output_length + 8 * s.length + 8) = Except.error e) ∧
    (d.length = h.output_length →
      pss_encode h d s (8 * h.output_length + 8 * s.length + 9)
        = Except.ok (pssEM h d s (8 * h.output_length + 8 * s.length + 9))) := by
  refine ⟨⟨?_, ?_⟩, ?_, ?_⟩
  · rintro ⟨e, he⟩
    by_contra hc
    push_neg at hc
    obtain ⟨h1, h2⟩ := hc
    unfold pss_encode at he
    rw [if_neg (by simp [h1]), if_neg (by omega)] at he
    cases he
  · intro hor
    by_cases hl : d.length = h.output_length
    · rcases hor with h1 | h2
      · exact absurd hl h1
      · exact ⟨_, by unfold pss_encode; rw [if_neg (by simp [hl]), if_pos h2]⟩
    · exact ⟨_, by unfold pss_encode; rw [if_pos hl]⟩
  · by_cases hl : d.length = h.output_length
    · exact ⟨_, by unfold pss_encode; rw [if_neg (by simp [hl]), if_pos (by omega)]⟩
    · exact ⟨_, by unfold pss_encode; rw [if_pos hl]⟩
  · intro hl
    unfold pss_encode
    rw [if_neg (by simp [hl]), if_neg (by omega)]

/-- C4: encode output layout: the EM is exactly `ceil(N/8)` bytes, its
last byte is `0xBC`, its `H` bytes just before the trailer byte are the
trailer digest `Hash(0^8 || d || s)` written in clear, and its first byte
has the top `8*emLen - N` bits cleared. -/
theorem pss_encode_layout (h : HashFunction) (d s : List Nat) (N : Nat)
    (hd : d.length = h.output_length)
    (hN : 8 * h.output_length + 8 * s.length + 9 ≤ N) :
    pss_encode h d s N = Except.ok (pssEM h d s N) ∧
    (pssEM h d s N).length = ceil_tobytes N ∧
    (pssEM h d s N).getLast? = some 0xBC ∧
    ((pssEM h d s N).drop (ceil_tobytes N - h.output_length - 1)).take h.output_length
      = h.run (List.replicate 8 0 ++ d ++ s) ∧
    (pssEM h d s N).headD 0 < 2 ^ (8 - (8 * ceil_tobytes N - N)) := by
  have hceil : ceil_tobytes N = (N + 7) / 8 := rfl
  have hoLbig : h.output_length + s.length + 2 ≤ ceil_tobytes N := by
    rw [hceil]; omega
  have hT7 : 8 * ceil_tobytes N - N ≤ 7 := by rw [hceil]; omega
  have hA : (h.run (List.replicate 8 0 ++ d ++ s)).length = h.output_length :=
    h.run_length _
  set A := h.run (List.replicate 8 0 ++ d ++ s) with hAdef
  set oL := ceil_tobytes N with hoL
  set db := List.replicate (oL - (1 + s.length + h.output_length + 1)) 0 ++ [1] ++ s
    with hdb
  set mask := h.mgf A (oL - h.output_length - 1) with hmask
  set k := 255 >>> (8 * oL - N) with hk
  set maskedDB := andHead (xorBytes db mask) k with hmdb
  have hEM : pssEM h d s N = maskedDB ++ A ++ [188] := rfl
  have hdbl : db.length = oL - h.output_length - 1 := by
    rw [hdb]; simp; omega
  have hmaskl : mask.length = oL - h.output_length - 1 := h.mgf_length _ _
  have hmdbl : maskedDB.length = oL - h.output_length - 1 := by
    rw [hmdb, andHead_length, xorBytes_length, hdbl, hmaskl, Nat.min_self]
  have hEMl : (pssEM h d s N).length = oL := by
    rw [hEM]; simp [hmdbl, hA]; omega
  refine ⟨?_, hEMl, ?_, ?_, ?_⟩
  · unfold pss_encode
    rw [if_neg (by simp [hd]), if_neg (by omega)]
  · rw [hEM, List.getLast?_concat]
  · rw [hEM, List.append_assoc, List.drop_left' hmdbl, List.take_left' hA]
  · have hxblen : (xorBytes db mask).length = oL - h.output_length - 1 := by
      rw [xorBytes_length, hdbl, hmaskl, Nat.min_self]
    have hkval : k = 2 ^ (8 - (8 * oL - N)) - 1 := by
      rw [hk, shift255 _ (by omega)]
    rw [hEM, hmdb]
    cases hxb : xorBytes db mask with
    | nil => rw [hxb] at hxblen; simp at hxblen; omega
    | cons b rest =>
      have hle : b &&& k ≤ k := Nat.and_le_right
      have hpos : 0 < 2 ^ (8 - (8 * oL - N)) := Nat.two_pow_pos _
      simp [andHead]
      omega

theorem pss_encode_layout_witness :
    pss_encode testHash4 [1, 2, 3, 4] [170, 187, 204, 221] 80
      = Except.ok (pssEM testHash4 [1, 2, 3, 4] [170, 187, 204, 221] 80) ∧
    (pssEM testHash4 [1, 2, 3, 4] [170, 187, 204, 221] 80).length = 10 ∧
    (pssEM testHash4 [1, 2, 3, 4] [170, 187, 204, 221] 80).getLast? = some 188 ∧
    ((pssEM testHash4 [1, 2, 3, 4] [170, 187, 204, 221] 80).drop 5).take 4
      = testHash4.run (List.replicate 8 0 ++ [1, 2, 3, 4] ++ [170, 187, 204, 221]) ∧
    (pssEM testHash4 [1, 2, 3, 4] [170, 187, 204, 221] 80).headD 0 < 256 :=
  pss_encode_layout testHash4 [1, 2, 3, 4] [170, 187, 204, 221] 80
    (by decide) (by decide)

/-- C10: `PSS_Raw::raw_data` empties the internal message buffer on every
call, including when it throws because the buffered length differs from
the hash output length; a subsequent `update` accumulates from an empty
buffer. -/
theorem pss_raw_data_clears_buffer (p : PSS_Raw) (input : List Nat) :
    ((PSS_Raw.raw_data p).2).m_msg = [] ∧
    (((PSS_Raw.raw_data p).2).update input).m_msg = input ∧
    (p.m_msg.length ≠ p.m_hash.output_length →
      (PSS_Raw.raw_data p).1
        = Except.error "PSS_Raw Bad input length, did not match hash") := by
  refine ⟨?_, ?_, ?_⟩
  · simp only [PSS_Raw.raw_data]
    split <;> rfl
  · simp only [PSS_Raw.raw_data, PSS_Raw.update]
    split <;> rfl
  · intro hlen
    simp only [PSS_Raw.raw_data]
    rw [if_pos hlen]

/-- C5: salt-length policy: a codec configured with
`required_salt_len = true` and required salt length `S2` returns `false`
whenever the discovered salt length differs from `S2`, even when the
digest comparison in `pss_verify` succeeded; in particular an EM encoded
with salt length `S ≠ S2` is rejected by both stateful wrappers. -/
theorem pss_required_salt_length_policy (h : HashFunction) (S2 : Nat)
    (coded raw d s : List Nat) (key_bits N : Nat)
    (hdiff : (pss_verify h coded raw key_bits 0).2 ≠ S2)
    (hd : d.length = h.output_length)
    (hN : 8 * h.output_length + 8 * s.length + 9 ≤ N)
    (hS : s.length ≠ S2) :
    (PSSR.mk h S2 true).verify coded raw key_bits = false ∧
    (PSS_Raw.mk h S2 true []).verify coded raw key_bits = false ∧
    (PSSR.mk h S2 true).verify (pssEM h d s N) d N = false ∧
    (PSS_Raw.mk h S2 true []).verify (pssEM h d s N) d N = false := by
  have hEM : pss_verify h (pssEM h d s N) d N 0 = (true, s.length) := by
    rw [pss_verify_pssEM h d s d N 0 hd hN, if_pos rfl]
  refine ⟨?_, ?_, ?_, ?_⟩
  · simp only [PSSR.verify]
    rw [if_pos ⟨trivial, hdiff⟩]
  · simp only [PSS_Raw.verify]
    rw [if_pos ⟨trivial, hdiff⟩]
  · simp only [PSSR.verify]
    rw [if_pos ⟨trivial, by rw [hEM]; exact hS⟩]
  · simp only [PSS_Raw.verify]
    rw [if_pos ⟨trivial, by rw [hEM]; exact hS⟩]

theorem pss_required_salt_length_policy_witness :
    (PSSR.mk testHash4 1 true).verify [0] [0] 0 = false ∧
    (PSS_Raw.mk testHash4 1 true []).verify [0] [0] 0 = false ∧
    (PSSR.mk testHash4 1 true).verify
      (pssEM testHash4 [1, 2, 3, 4] [170, 187, 204, 221] 80) [1, 2, 3, 4] 80 = false ∧
    (PSS_Raw.mk testHash4 1 true []).verify
      (pssEM testHash4 [1, 2, 3, 4] [170, 187, 204, 221] 80) [1, 2, 3, 4] 80 = false :=
  pss_required_salt_length_policy testHash4 1 [0] [0] [1, 2, 3, 4] [170, 187, 204, 221]
    0 80 (by decide) (by decide) (by decide) (by decide)

/-- C7: digest mismatch: for a collision-free hash collaborator, a valid
EM produced by `pss_encode` for digest `d` fails verification against any
different digest `d2 ≠ d` of the same length at matching `key_bits`. -/
theorem pss_verify_digest_mismatch (h : HashFunction) (d s d2 : List Nat) (N s0 : Nat)
    (hinj : Function.Injective h.run)
    (hd : d.length = h.output_length)
    (hd2 : d2.length = h.output_length)
    (hne : d2 ≠ d)
    (hN : 8 * h.output_length + 8 * s.length + 9 ≤ N) :
    pss_encode h d s N = Except.ok (pssEM h d s N) ∧
    pss_verify h (pssEM h d s N) d2 N s0 = (false, s0) := by
  refine ⟨by unfold pss_encode; rw [if_neg (by simp [hd]), if_neg (by omega)], ?_⟩
  rw [pss_verify_pssEM h d s d2 N s0 hd2 hN, if_neg]
  intro hcontra
  apply hne
  have heq := hinj hcontra
  have h1 : List.replicate 8 0 ++ d = List.replicate 8 0 ++ d2 :=
    List.append_cancel_right heq
  exact (List.append_cancel_left h1).symm

theorem pss_verify_digest_mismatch_witness :
    pss_encode injHash [0] [5] 25 = Except.ok (pssEM injHash [0] [5] 25) ∧
    pss_verify injHash (pssEM injHash [0] [5] 25) [1] 25 3 = (false, 3) :=
  pss_verify_digest_mismatch injHash [0] [5] [1] 25 3 injHash_run_injective
    rfl rfl (by decide) (by decide)

/-- C6: left-zero-padding invariance: for an EM shorter than
`keyBytes = ceil(key_bits/8)` (but longer than one byte) ending in `0xBC`,
and a digest of the right length, `pss_verify` returns the same result on
the EM and on its left-zero-padding to `keyBytes` bytes: the numeric value
of EM is what is verified, not its byte length. -/
theorem pss_verify_leftpad_invariant (h : HashFunction)
    (pss_repr message_hash : List Nat) (key_bits s0 : Nat)
    (hlen1 : 1 < pss_repr.length)
    (hlen2 : pss_repr.length < ceil_tobytes key_bits)
    (hlast : pss_repr.getLast? = some 0xBC)
    (_hmh : message_hash.length = h.output_length) :
    pss_verify h
        (List.replicate (ceil_tobytes key_bits - pss_repr.length) 0 ++ pss_repr)
        message_hash key_bits s0
      = pss_verify h pss_repr message_hash key_bits s0 := by
  set kb := ceil_tobytes key_bits with hkb
  set P := List.replicate (kb - pss_repr.length) 0 ++ pss_repr with hP
  have hrnil : pss_repr ≠ [] := by
    intro hc
    rw [hc] at hlen1
    simp at hlen1
  have hPlen : P.length = kb := by
    rw [hP]
    simp
    omega
  have hPcoded : pssCoded P kb = pssCoded pss_repr kb := by
    unfold pssCoded
    rw [if_neg (by rw [hPlen]; omega), if_pos hlen2, hP]
  have hPlast : P.getLast? = some 188 := by
    rw [hP, List.getLast?_append_of_ne_nil _ hrnil, hlast]
  have hHCeq : pssHClaimed h P key_bits = pssHClaimed h pss_repr key_bits := by
    simp only [pssHClaimed]
    rw [← hkb, hPcoded]
  have hDBeq : pssUnmaskedDB h P key_bits = pssUnmaskedDB h pss_repr key_bits := by
    simp only [pssUnmaskedDB]
    rw [← hkb, hPcoded, hHCeq]
  simp only [pss_verify]
  rw [← hkb, hDBeq, hHCeq, hPcoded, hPlen, hlast, hPlast]
  rw [if_neg (show ¬(kb > kb ∨ kb ≤ 1) by omega)]
  rw [if_neg (show ¬(pss_repr.length > kb ∨ pss_repr.length ≤ 1) by omega)]

theorem pss_verify_leftpad_invariant_witness :
    pss_verify testHash4
        (List.replicate (ceil_tobytes 80 - (pssEM testHash4 [1, 2, 3, 4] [9, 9] 57).length) 0
          ++ pssEM testHash4 [1, 2, 3, 4] [9, 9] 57)
        [1, 2, 3, 4] 80 0
      = pss_verify testHash4 (pssEM testHash4 [1, 2, 3, 4] [9, 9] 57) [1, 2, 3, 4] 80 0 :=
  pss_verify_leftpad_invariant testHash4 (pssEM testHash4 [1, 2, 3, 4] [9, 9] 57)
    [1, 2, 3, 4] 80 0 (by decide) (by decide) (by decide) (by decide)

/-- C8 counterexample: with the 4-byte test hash, digest `0x01020304`,
salt `0xAABBCCDD` and `N = 80`, encoding succeeds but the bytes
`EM[4:8]` (indices 4..7) are not the digest's literal bytes: the trailer
digest sits at indices 5..8, so the claimed slice is off by one. -/
theorem pss_concrete_vector_slice_counterexample :
    pss_encode testHash4 [1, 2, 3, 4] [170, 187, 204, 221] 80
      = Except.ok (pssEM testHash4 [1, 2, 3, 4] [170, 187, 204, 221] 80) ∧
    ((pssEM testHash4 [1, 2, 3, 4] [170, 187, 204, 221] 80).drop 4).take 4
      ≠ [1, 2, 3, 4] :=
  ⟨rfl, by decide⟩

/-- C8 (amended): with the 4-byte test hash, digest `0x01020304`, salt
`0xAABBCCDD` and `N = 80` (`emLen = 10`, `dbLen = 5`): `EM[9] = 0xBC`,
the bytes at indices 5..8 (`EM[5:9]`, i.e. positions `emLen-H-1` to
`emLen-2`) are the digest's literal bytes `0x01020304` unmasked, and
verifying EM against the same digest at `key_bits = 80` returns true with
discovered salt length 4. -/
theorem pss_concrete_vector :
    pss_encode testHash4 [1, 2, 3, 4] [170, 187, 204, 221] 80
      = Except.ok (pssEM testHash4 [1, 2, 3, 4] [170, 187, 204, 221] 80) ∧
    (pssEM testHash4 [1, 2, 3, 4] [170, 187, 204, 221] 80).getD 9 0 = 0xBC ∧
    ((pssEM testHash4 [1, 2, 3, 4] [170, 187, 204, 221] 80).drop 5).take 4
      = [1, 2, 3, 4] ∧
    pss_verify testHash4 (pssEM testHash4 [1, 2, 3, 4] [170, 187, 204, 221] 80)
      [1, 2, 3, 4] 80 0 = (true, 4) :=
  ⟨rfl, by decide, by decide, by decide⟩
